import Mathlib

/-!
Verification of `utils/classify_workbenches.py` from KeithSloan/FreeCAD-addons.

The program is a pure scan over a directory tree: it classifies each
immediate child directory of a scan root by which initializer-file layout
it follows, writes a CSV report and prints a summary.  We embed the
directory tree as a nested inductive (`FSTree`): a node is either a file
(carrying its byte content as a `String`) or a directory carrying an
ordered association list from child names to child nodes.  `Path.exists`
becomes a name lookup in the parent directory's child list (true for
files and directories alike, exactly as in `pathlib`), `Path.rglob`
becomes a recursive collection of all strict descendants carrying a given
name, and the one side effect of `main` — writing the report file into
the `utils` directory — becomes a functional update of the tree.
-/

/-- A filesystem node: a regular file with its content, or a directory
with an ordered list of `(childName, childNode)` entries (the order is
the filesystem enumeration order seen by `iterdir`). -/
inductive FSTree where
  | file (content : String) : FSTree
  | dir (children : List (String × FSTree)) : FSTree

/-- `Path.is_dir()` on an existing node. -/
def FSTree.isDir : FSTree → Bool
  | .file _ => false
  | .dir _ => true

/-- `(parent / n).exists()`: a child named `n` (file or directory — the
check does not distinguish) exists directly inside the directory whose
child list is `cs`. -/
def childExists (cs : List (String × FSTree)) (n : String) : Bool :=
  (List.lookup n cs).isSome

mutual
/-- `path.rglob(pat)` for a literal (wildcard-free) pattern `pat`: all
strict descendants of the node carrying the name `pat`, in depth-first
enumeration order.  On a non-directory node `pathlib`'s glob yields
nothing, hence `[]` on `file`. -/
def rglobTree (pat : String) : FSTree → List FSTree
  | .file _ => []
  | .dir cs => rglobList pat cs

/-- The descendants named `pat` reachable through a child list. -/
def rglobList (pat : String) : List (String × FSTree) → List FSTree
  | [] => []
  | (n, c) :: rest =>
      (if n = pat then [c] else []) ++ (rglobTree pat c ++ rglobList pat rest)
end

/-- The body of the inner loop of `find_new_style`: a candidate `sub`
under a `freecad` directory matches when it is a directory that directly
contains `__init__.py` and also directly contains `init_gui.py` or
`InitGui.py` (`if not sub.is_dir(): continue` plus the existence test). -/
def subMatches : FSTree → Bool
  | .file _ => false
  | .dir sc =>
      childExists sc "__init__.py" &&
        (childExists sc "init_gui.py" || childExists sc "InitGui.py")

/-- The body of the outer loop of `find_new_style`: a node yielded by
`rglob("freecad")` leads to success when it is a directory one of whose
immediate children matches `subMatches`. -/
def freecadDirMatch : FSTree → Bool
  | .file _ => false
  | .dir subs => subs.any fun nc => subMatches nc.2

/-- `find_new_style(path)`: search every strict descendant named
`freecad`; return true as soon as one is a directory with a matching
immediate child subdirectory, false once the search is exhausted.
`none` models a path that does not exist (glob then yields nothing). -/
def find_new_style : Option FSTree → Bool
  | none => false
  | some t => (rglobTree "freecad" t).any freecadDirMatch

/-- `find_old_style(path)`: `Init.py` or `init.py` exists directly in the
directory, and `InitGui.py` or `initgui.py` exists directly in it.
`none` models a path that does not exist, and a `file` node a path that
is not a directory: every `exists()` probe under it is false. -/
def find_old_style : Option FSTree → Bool
  | some (.dir cs) =>
      (childExists cs "Init.py" || childExists cs "init.py") &&
        (childExists cs "InitGui.py" || childExists cs "initgui.py")
  | _ => false

/-- The record dict returned by `classify_workbench`. -/
structure ClassificationRecord where
  name : String
  style : String
  path : String
  old_style : Bool
  new_style : Bool
deriving Repr, DecidableEq

/-- `classify_workbench(path)`: run both detectors and derive the style
label with the source's if/elif chain.  The directory's base name and
its printable path are passed alongside the node since `FSTree` nodes do
not carry their own name. -/
def classify_workbench (name pathStr : String) (t : Option FSTree) :
    ClassificationRecord :=
  let old_style := find_old_style t
  let new_style := find_new_style t
  let style :=
    if old_style && !new_style then "old"
    else if new_style && !old_style then "new"
    else if old_style && new_style then "mixed"
    else "unknown"
  { name := name, style := style, path := pathStr,
    old_style := old_style, new_style := new_style }

/-- `scan_addons(root)`: iterate the scan root's children in enumeration
order, keep those that are directories and not named `utils`, and
classify each.  `rootPath` is `str(root)`, so `str(child)` is
`rootPath ++ "/" ++ name`. -/
def scan_addons (rootPath : String) :
    List (String × FSTree) → List ClassificationRecord
  | [] => []
  | (n, c) :: rest =>
      if c.isDir && n != "utils" then
        classify_workbench n (rootPath ++ "/" ++ n) (some c)
          :: scan_addons rootPath rest
      else scan_addons rootPath rest

/-- `str()` of a Python boolean, as rendered by the `csv` writer. -/
def boolStr : Bool → String
  | true => "True"
  | false => "False"

/-- QUOTE_MINIMAL quoting of one CSV field: quote only when the field
contains the delimiter, the quote character or a line-terminator
character, doubling embedded quotes. -/
def csvQuoteField (s : String) : String :=
  if s.toList.any fun c => c = ',' || c = '"' || c = '\r' || c = '\n' then
    "\"" ++ String.join (s.toList.map fun c =>
      if c = '"' then "\"\"" else c.toString) ++ "\""
  else s

/-- One CSV line: quoted fields joined by commas, CRLF-terminated
(the `csv` module's default line terminator). -/
def csvLine (fields : List String) : String :=
  String.intercalate "," (fields.map csvQuoteField) ++ "\r\n"

/-- The data row the `DictWriter` emits for one record: the five fields
in the fixed `fieldnames` order. -/
def csvRecordLine (r : ClassificationRecord) : String :=
  csvLine [r.name, r.style, r.path, boolStr r.old_style, boolStr r.new_style]

/-- `write_csv(results, csv_path)` as the byte content it leaves in the
file: the header row written by `writeheader`, then one row appended per
record in sequence order. -/
def write_csv (results : List ClassificationRecord) : String :=
  results.foldl (fun acc r => acc ++ csvRecordLine r)
    (csvLine ["name", "style", "path", "old_style", "new_style"])

/-- The per-style count computed by `print_summary`:
`sum(r["style"] == s for r in results)`. -/
def styleCount (results : List ClassificationRecord) (s : String) : Nat :=
  results.countP fun r => r.style == s

/-- Create-or-truncate of the child `n` of a directory: `open(p, "w")`
replaces the content of an existing entry and otherwise appends a fresh
one. -/
def setChild (cs : List (String × FSTree)) (n : String) (t : FSTree) :
    List (String × FSTree) :=
  if cs.any fun nc => nc.1 == n then
    cs.map fun nc => if nc.1 == n then (nc.1, t) else nc
  else cs ++ [(n, t)]

/-- Writing `workbench_report.csv` with content `report` inside one node
(the `utils` directory).  `main` only ever does this to the directory
holding the script, which exists and is a directory; on a `file` node the
real `open` would fail, and the model leaves the node unchanged. -/
def addReport (report : String) : FSTree → FSTree
  | .file c => .file c
  | .dir ucs => .dir (setChild ucs "workbench_report.csv" (.file report))

/-- The effect of `main`'s single write on the scan root's child list:
the report lands at `utils/workbench_report.csv`, i.e. only the entry
named `utils` is touched. -/
def writeReportFile (cs : List (String × FSTree)) (report : String) :
    List (String × FSTree) :=
  cs.map fun nc => if nc.1 == "utils" then (nc.1, addReport report nc.2) else nc

/-- One run of `main` over a scan root with child list `cs`: scan, render
the CSV report, write it under `utils`.  Returns the report content and
the filesystem state after the run.  `rootPath` is the printable scan
root (`script_path.parents[1]`). -/
def run_main (rootPath : String) (cs : List (String × FSTree)) :
    String × List (String × FSTree) :=
  let results := scan_addons rootPath cs
  let report := write_csv results
  (report, writeReportFile cs report)

/-! ## Helper lemmas -/

/-- A name lookup succeeds exactly when some entry with that name is in
the child list. -/
theorem childExists_iff (cs : List (String × FSTree)) (n : String) :
    childExists cs n = true ↔ ∃ t, (n, t) ∈ cs := by
  induction cs with
  | nil => simp [childExists, List.lookup]
  | cons hd tl ih =>
    obtain ⟨m, c⟩ := hd
    by_cases h : n = m
    · subst h
      simp [childExists, List.lookup]
    · have hb : (n == m) = false := by simp [h]
      simp only [childExists, List.lookup, hb] at *
      simp only [List.mem_cons, Prod.mk.injEq]
      constructor
      · intro hs
        obtain ⟨t, ht⟩ := ih.mp hs
        exact ⟨t, Or.inr ht⟩
      · rintro ⟨t, (⟨hn, -⟩ | ht)⟩
        · exact absurd hn h
        · exact ih.mpr ⟨t, ht⟩

/-- The style label produced by `classify_workbench` is always one of the
four known labels. -/
theorem classify_style_mem (name pathStr : String) (t : Option FSTree) :
    (classify_workbench name pathStr t).style = "old" ∨
    (classify_workbench name pathStr t).style = "new" ∨
    (classify_workbench name pathStr t).style = "mixed" ∨
    (classify_workbench name pathStr t).style = "unknown" := by
  cases h1 : find_old_style t <;> cases h2 : find_new_style t <;>
    simp [classify_workbench, h1, h2]

/-! ## Claims -/

/-- C1: in every record returned by `classify_workbench`, the derived
style satisfies: `style = "old"` iff `old_style` and not `new_style`;
`style = "new"` iff `new_style` and not `old_style`; `style = "mixed"`
iff both; `style = "unknown"` iff neither; and one of the four labels
always holds, so exactly one of the four cases applies per record. -/
theorem classify_style_invariant (name pathStr : String) (t : Option FSTree) :
    ((classify_workbench name pathStr t).style = "old" ↔
      (classify_workbench name pathStr t).old_style = true ∧
      (classify_workbench name pathStr t).new_style = false) ∧
    ((classify_workbench name pathStr t).style = "new" ↔
      (classify_workbench name pathStr t).new_style = true ∧
      (classify_workbench name pathStr t).old_style = false) ∧
    ((classify_workbench name pathStr t).style = "mixed" ↔
      (classify_workbench name pathStr t).old_style = true ∧
      (classify_workbench name pathStr t).new_style = true) ∧
    ((classify_workbench name pathStr t).style = "unknown" ↔
      (classify_workbench name pathStr t).old_style = false ∧
      (classify_workbench name pathStr t).new_style = false) ∧
    ((classify_workbench name pathStr t).style = "old" ∨
      (classify_workbench name pathStr t).style = "new" ∨
      (classify_workbench name pathStr t).style = "mixed" ∨
      (classify_workbench name pathStr t).style = "unknown") := by
  cases h1 : find_old_style t <;> cases h2 : find_new_style t <;>
    simp [classify_workbench, h1, h2]

/-- C2: `find_old_style` is true exactly when an entry named `Init.py`
or `init.py` exists directly inside the directory and an entry named
`InitGui.py` or `initgui.py` also exists directly inside it; only the
existence of the names is consulted, never the entries themselves. -/
theorem find_old_style_iff (cs : List (String × FSTree)) :
    find_old_style (some (.dir cs)) = true ↔
      ((∃ t, ("Init.py", t) ∈ cs) ∨ (∃ t, ("init.py", t) ∈ cs)) ∧
      ((∃ t, ("InitGui.py", t) ∈ cs) ∨ (∃ t, ("initgui.py", t) ∈ cs)) := by
  simp only [find_old_style, Bool.and_eq_true, Bool.or_eq_true,
    childExists_iff]

/-- C8: the detectors are total on every path, including one that does
not exist (`none`): a missing directory makes every existence probe
false, so both detectors return `false` and `classify_workbench` still
returns a full record, labelled `unknown`, instead of failing. -/
theorem missing_path_yields_record (name pathStr : String) :
    find_old_style none = false ∧
    find_new_style none = false ∧
    classify_workbench name pathStr none =
      { name := name, style := "unknown", path := pathStr,
        old_style := false, new_style := false } := by
  refine ⟨rfl, rfl, ?_⟩
  simp [classify_workbench, find_old_style, find_new_style]

/-- Replace every entry's node by `f` of it, keeping the names. -/
def mapVals (f : FSTree → FSTree) (cs : List (String × FSTree)) :
    List (String × FSTree) :=
  cs.map fun nc => (nc.1, f nc.2)

/-- Name lookup sees only names, never the kind or content of the
entries. -/
theorem childExists_mapVals (f : FSTree → FSTree)
    (cs : List (String × FSTree)) (n : String) :
    childExists (mapVals f cs) n = childExists cs n := by
  induction cs with
  | nil => rfl
  | cons hd tl ih =>
    obtain ⟨m, c⟩ := hd
    by_cases h : (n == m)
    · simp [childExists, mapVals, List.lookup, h]
    · simp only [Bool.not_eq_true] at h
      simpa [childExists, mapVals, List.lookup, h] using ih

/-- C9: the marker checks are pure existence tests that never look at
the entry's kind: arbitrarily rewriting every entry's node (e.g. turning
a marker file into a directory of the same name) changes neither
`find_old_style` at the addon root nor the per-child test of
`find_new_style`; in particular directory entries named `Init.py` and
`InitGui.py` satisfy `find_old_style`, and directory entries named
`__init__.py` and `init_gui.py` satisfy the new-style child test, exactly
as regular files would. -/
theorem marker_checks_ignore_kind (f : FSTree → FSTree) :
    (∀ cs : List (String × FSTree),
      find_old_style (some (.dir (mapVals f cs))) =
        find_old_style (some (.dir cs))) ∧
    (∀ sc : List (String × FSTree),
      subMatches (.dir (mapVals f sc)) = subMatches (.dir sc)) ∧
    (∀ t1 t2 : FSTree, ∀ rest : List (String × FSTree),
      find_old_style
        (some (.dir (("Init.py", t1) :: ("InitGui.py", t2) :: rest))) = true) ∧
    (∀ u1 u2 : FSTree, ∀ rest : List (String × FSTree),
      subMatches
        (.dir (("__init__.py", u1) :: ("init_gui.py", u2) :: rest)) = true) := by
  refine ⟨?_, ?_, ?_, ?_⟩
  · intro cs
    simp [find_old_style, childExists_mapVals]
  · intro sc
    simp [subMatches, childExists_mapVals]
  · intro t1 t2 rest
    have h1 : childExists (("Init.py", t1) :: ("InitGui.py", t2) :: rest)
        "Init.py" = true := by
      simp [childExists, List.lookup]
    have h2 : childExists (("Init.py", t1) :: ("InitGui.py", t2) :: rest)
        "InitGui.py" = true := by
      simp [childExists, List.lookup]
    simp [find_old_style, h1, h2]
  · intro u1 u2 rest
    have h1 : childExists (("__init__.py", u1) :: ("init_gui.py", u2) :: rest)
        "__init__.py" = true := by
      simp [childExists, List.lookup]
    have h2 : childExists (("__init__.py", u1) :: ("init_gui.py", u2) :: rest)
        "init_gui.py" = true := by
      simp [childExists, List.lookup]
    simp [subMatches, h1, h2]

/-- A member of a directory's child list is smaller than the directory. -/
theorem FSTree.sizeOf_lt_of_mem {n : String} {c : FSTree}
    {cs : List (String × FSTree)} (h : (n, c) ∈ cs) :
    sizeOf c < sizeOf (FSTree.dir cs) := by
  have h1 : sizeOf (n, c) < sizeOf cs := List.sizeOf_lt_of_mem h
  simp only [Prod.mk.sizeOf_spec] at h1
  simp only [FSTree.dir.sizeOf_spec]
  omega

/-- Structural induction on a filesystem node through its child lists. -/
def FSTree.strongInd (motive : FSTree → Prop)
    (hfile : ∀ s, motive (.file s))
    (hdir : ∀ cs, (∀ n c, (n, c) ∈ cs → motive c) → motive (.dir cs)) :
    ∀ t, motive t
  | .file s => hfile s
  | .dir cs => hdir cs fun _ c hc =>
      have := FSTree.sizeOf_lt_of_mem hc
      FSTree.strongInd motive hfile hdir c
termination_by t => sizeOf t
decreasing_by
  simpa [FSTree.dir.sizeOf_spec] using this

/-- `d` is a strict descendant of `t` and is named `pat` in its parent
directory — the nodes `rglob(pat)` visits. -/
inductive DescNamed (pat : String) : FSTree → FSTree → Prop where
  | here (cs : List (String × FSTree)) (c : FSTree) :
      (pat, c) ∈ cs → DescNamed pat (.dir cs) c
  | deeper (cs : List (String × FSTree)) (n : String) (c d : FSTree) :
      (n, c) ∈ cs → DescNamed pat c d → DescNamed pat (.dir cs) d

/-- Unfolding of membership in the list-level glob. -/
theorem mem_rglobList (pat : String) (cs : List (String × FSTree))
    (d : FSTree) :
    d ∈ rglobList pat cs ↔
      ∃ n c, (n, c) ∈ cs ∧ ((n = pat ∧ c = d) ∨ d ∈ rglobTree pat c) := by
  induction cs with
  | nil => simp [rglobList]
  | cons hd tl ih =>
    obtain ⟨n, c⟩ := hd
    simp only [rglobList, List.mem_append, ih, List.mem_cons, Prod.mk.injEq]
    constructor
    · rintro ((hin | hin | ⟨m, e, hme, hrest⟩))
      · by_cases h : n = pat
        · simp [h] at hin
          exact ⟨n, c, Or.inl ⟨rfl, rfl⟩, Or.inl ⟨h, hin.symm⟩⟩
        · simp [h] at hin
      · exact ⟨n, c, Or.inl ⟨rfl, rfl⟩, Or.inr hin⟩
      · exact ⟨m, e, Or.inr hme, hrest⟩
    · rintro ⟨m, e, (⟨hm, he⟩ | hmem), hcond⟩
      · subst hm; subst he
        rcases hcond with ⟨hp, he⟩ | hin
        · subst hp; subst he
          left; simp
        · right; left; exact hin
      · right; right; exact ⟨m, e, hmem, hcond⟩

/-- A node is yielded by `rglob(pat)` exactly when it is a strict
descendant named `pat`. -/
theorem mem_rglobTree (pat : String) :
    ∀ t d, d ∈ rglobTree pat t ↔ DescNamed pat t d := by
  intro t
  induction t using FSTree.strongInd with
  | hfile s =>
    intro d
    simp only [rglobTree, List.not_mem_nil, false_iff]
    intro h
    cases h
  | hdir cs ih =>
    intro d
    simp only [rglobTree, mem_rglobList]
    constructor
    · rintro ⟨n, c, hmem, (⟨hn, hc⟩ | hin)⟩
      · subst hn
        cases hc
        exact DescNamed.here cs d hmem
      · exact DescNamed.deeper cs n c d hmem ((ih n c hmem d).mp hin)
    · intro h
      cases h with
      | here cs2 c2 hmem => exact ⟨pat, _, hmem, Or.inl ⟨rfl, rfl⟩⟩
      | deeper cs2 n c d2 hmem hdesc =>
          exact ⟨n, c, hmem, Or.inr ((ih n c hmem _).mpr hdesc)⟩

/-- C3: `find_new_style` is true exactly when some strict descendant of
the addon directory is a directory literally named `freecad` having an
immediate child directory that directly contains `__init__.py` and
directly contains `init_gui.py` or `InitGui.py`; with no such
constellation anywhere — no `freecad` directory, no child subdirectory,
or no child carrying both markers — the search is exhausted and the
result is false. -/
theorem find_new_style_iff (t : FSTree) :
    find_new_style (some t) = true ↔
      ∃ subs : List (String × FSTree),
        DescNamed "freecad" t (.dir subs) ∧
        ∃ n : String, ∃ sc : List (String × FSTree),
          (n, FSTree.dir sc) ∈ subs ∧
          (∃ u, ("__init__.py", u) ∈ sc) ∧
          ((∃ u, ("init_gui.py", u) ∈ sc) ∨ (∃ u, ("InitGui.py", u) ∈ sc)) := by
  simp only [find_new_style, List.any_eq_true]
  constructor
  · rintro ⟨fd, hmem, hmatch⟩
    have hd := (mem_rglobTree "freecad" t fd).mp hmem
    cases fd with
    | file s => simp [freecadDirMatch] at hmatch
    | dir subs =>
      refine ⟨subs, hd, ?_⟩
      simp only [freecadDirMatch, List.any_eq_true] at hmatch
      obtain ⟨nc, hnc, hsub⟩ := hmatch
      obtain ⟨n, c⟩ := nc
      cases c with
      | file s => simp [subMatches] at hsub
      | dir sc =>
        simp only [subMatches, Bool.and_eq_true, Bool.or_eq_true,
          childExists_iff] at hsub
        exact ⟨n, sc, hnc, hsub.1, hsub.2⟩
  · rintro ⟨subs, hdesc, n, sc, hmem, hini, hgui⟩
    refine ⟨.dir subs, (mem_rglobTree "freecad" t _).mpr hdesc, ?_⟩
    simp only [freecadDirMatch, List.any_eq_true]
    refine ⟨(n, .dir sc), hmem, ?_⟩
    simp only [subMatches, Bool.and_eq_true, Bool.or_eq_true, childExists_iff]
    exact ⟨hini, hgui⟩

/-- The scan loop is a filter of the child list followed by a map of the
classifier. -/
theorem scan_addons_eq (p : String) (cs : List (String × FSTree)) :
    scan_addons p cs =
      (cs.filter fun nc => nc.2.isDir && nc.1 != "utils").map
        fun nc => classify_workbench nc.1 (p ++ "/" ++ nc.1) (some nc.2) := by
  induction cs with
  | nil => rfl
  | cons hd tl ih =>
    obtain ⟨n, c⟩ := hd
    by_cases h : (c.isDir && n != "utils") = true
    · simp [scan_addons, List.filter, h, ih]
    · simp only [Bool.not_eq_true] at h
      simp [scan_addons, List.filter, h, ih]

/-- C4: a scan produces exactly one record per immediate child directory
of the root, skipping every non-directory entry and every entry exactly
named `utils` whatever it contains, in one non-recursive pass over the
child list: the result is the filtered child list mapped through the
classifier, so its length is the number of non-`utils` child
directories. -/
theorem scan_addons_one_record_per_dir (p : String)
    (cs : List (String × FSTree)) :
    scan_addons p cs =
      (cs.filter fun nc => nc.2.isDir && nc.1 != "utils").map
        (fun nc => classify_workbench nc.1 (p ++ "/" ++ nc.1) (some nc.2)) ∧
    (scan_addons p cs).length =
      (cs.filter fun nc => nc.2.isDir && nc.1 != "utils").length ∧
    (∀ t : FSTree, ∀ rest : List (String × FSTree),
      scan_addons p (("utils", t) :: rest) = scan_addons p rest) := by
  refine ⟨scan_addons_eq p cs, ?_, ?_⟩
  · rw [scan_addons_eq, List.length_map]
  · intro t rest
    simp [scan_addons]

/-- Every record a scan produces carries one of the four style labels. -/
theorem scan_style_mem (p : String) (cs : List (String × FSTree))
    (r : ClassificationRecord) (hr : r ∈ scan_addons p cs) :
    r.style = "old" ∨ r.style = "new" ∨ r.style = "mixed" ∨
      r.style = "unknown" := by
  rw [scan_addons_eq] at hr
  obtain ⟨nc, -, rfl⟩ := List.mem_map.mp hr
  exact classify_style_mem nc.1 (p ++ "/" ++ nc.1) (some nc.2)

/-- The four per-style counters partition any list of records whose
styles all come from the four labels. -/
theorem styleCount_partition (rs : List ClassificationRecord)
    (h : ∀ r ∈ rs, r.style = "old" ∨ r.style = "new" ∨ r.style = "mixed" ∨
      r.style = "unknown") :
    styleCount rs "old" + styleCount rs "new" + styleCount rs "mixed" +
      styleCount rs "unknown" = rs.length := by
  induction rs with
  | nil => rfl
  | cons r tl ih =>
    have htl : ∀ x ∈ tl, x.style = "old" ∨ x.style = "new" ∨
        x.style = "mixed" ∨ x.style = "unknown" :=
      fun x hx => h x (List.mem_cons_of_mem r hx)
    have ihtl := ih htl
    have hr := h r (List.mem_cons_self r tl)
    simp only [styleCount, List.countP_cons] at *
    rcases hr with hr | hr | hr | hr <;> simp [hr] <;> omega

/-- Appending one element at a time from the left equals prepending the
seed to the joined rendered rows. -/
theorem foldl_append_eq_join (f : ClassificationRecord → String) :
    ∀ (l : List ClassificationRecord) (init : String),
      l.foldl (fun acc r => acc ++ f r) init =
        init ++ String.join (l.map f) := by
  intro l
  induction l with
  | nil =>
    intro init
    apply String.ext
    simp [String.join_eq]
  | cons r tl ih =>
    intro init
    simp only [List.foldl_cons]
    rw [ih (init ++ f r)]
    apply String.ext
    simp [String.join_eq, String.data_append]

/-- The full report content: header line first, then the rendered rows
in sequence order. -/
theorem write_csv_eq (rs : List ClassificationRecord) :
    write_csv rs =
      "name,style,path,old_style,new_style\r\n" ++
        String.join (rs.map csvRecordLine) := by
  have h : csvLine ["name", "style", "path", "old_style", "new_style"] =
      "name,style,path,old_style,new_style\r\n" := by decide
  rw [write_csv, foldl_append_eq_join, h]

/-- C5: for any scan result, the four per-style counts printed by the
summary sum exactly to the printed total (the number of records), and
that total is the number of data rows the CSV writer emits — the report
content is the header line plus exactly one rendered line per record. -/
theorem summary_counts_sum (p : String) (cs : List (String × FSTree)) :
    styleCount (scan_addons p cs) "old" + styleCount (scan_addons p cs) "new" +
      styleCount (scan_addons p cs) "mixed" +
      styleCount (scan_addons p cs) "unknown" = (scan_addons p cs).length ∧
    ((scan_addons p cs).map csvRecordLine).length = (scan_addons p cs).length ∧
    write_csv (scan_addons p cs) =
      "name,style,path,old_style,new_style\r\n" ++
        String.join ((scan_addons p cs).map csvRecordLine) := by
  refine ⟨styleCount_partition _ (fun r hr => scan_style_mem p cs r hr),
    List.length_map _ _, write_csv_eq _⟩

/-- After `open(p, "w")` on a name that is already present, the first
entry found under that name holds the new content. -/
theorem lookup_map_replace (n : String) (t : FSTree) :
    ∀ cs : List (String × FSTree), (cs.any fun nc => nc.1 == n) = true →
      List.lookup n (cs.map fun nc => if nc.1 == n then (nc.1, t) else nc) =
        some t := by
  intro cs
  induction cs with
  | nil => simp
  | cons hd tl ih =>
    obtain ⟨m, c⟩ := hd
    intro hany
    by_cases h : m = n
    · subst h
      simp [List.lookup_cons]
    · have hb : (m == n) = false := by simp [h]
      have hb2 : (n == m) = false := by
        simp only [beq_eq_false_iff_ne]
        exact fun e => h e.symm
      simp only [List.any_cons, hb, Bool.false_or] at hany
      simp only [List.map_cons, hb, Bool.false_eq_true, if_false,
        List.lookup_cons, hb2]
      exact ih hany

/-- After `open(p, "w")` on a name that was absent, the appended entry
is found under that name. -/
theorem lookup_append_new (n : String) (t : FSTree) :
    ∀ cs : List (String × FSTree), (cs.any fun nc => nc.1 == n) = false →
      List.lookup n (cs ++ [(n, t)]) = some t := by
  intro cs
  induction cs with
  | nil => simp [List.lookup_cons]
  | cons hd tl ih =>
    obtain ⟨m, c⟩ := hd
    intro hany
    simp only [List.any_cons, Bool.or_eq_false_iff] at hany
    have hb2 : (n == m) = false := by
      simp only [beq_eq_false_iff_ne]
      have h1 := hany.1
      simp only [beq_eq_false_iff_ne] at h1
      exact fun e => h1 e.symm
    simp only [List.cons_append, List.lookup_cons, hb2]
    exact ih hany.2

/-- The overwrite semantics of the report write: whatever was at the
target name before, afterwards the name resolves to the new file. -/
theorem setChild_lookup (cs : List (String × FSTree)) (n : String)
    (t : FSTree) : List.lookup n (setChild cs n t) = some t := by
  unfold setChild
  by_cases hany : (cs.any fun nc => nc.1 == n) = true
  · rw [if_pos hany]
    exact lookup_map_replace n t cs hany
  · rw [if_neg hany]
    exact lookup_append_new n t cs (Bool.not_eq_true _ ▸ eq_false_of_ne_true hany)

/-- C7: the report writer emits the header row
`name,style,path,old_style,new_style` first, then exactly one row per
record in sequence order, each row holding the five fields in that fixed
order with booleans rendered as `True`/`False`; and the write replaces
whatever previously existed at the target name. -/
theorem write_csv_layout (rs : List ClassificationRecord) :
    write_csv rs =
      "name,style,path,old_style,new_style\r\n" ++
        String.join (rs.map csvRecordLine) ∧
    (∀ r : ClassificationRecord, csvRecordLine r =
      csvLine [r.name, r.style, r.path, boolStr r.old_style,
        boolStr r.new_style]) ∧
    boolStr true = "True" ∧ boolStr false = "False" ∧
    (∀ (ucs : List (String × FSTree)) (rep : String),
      List.lookup "workbench_report.csv"
        (setChild ucs "workbench_report.csv" (.file rep)) =
          some (.file rep)) :=
  ⟨write_csv_eq rs, fun _ => rfl, rfl, rfl,
    fun ucs rep => setChild_lookup ucs "workbench_report.csv" (.file rep)⟩

/-- Writing the report file into `utils` does not change what a scan
sees: the only entry the write touches is named `utils`, which the scan
skips by name whatever it holds. -/
theorem scan_addons_writeReport (p rep : String)
    (cs : List (String × FSTree)) :
    scan_addons p (writeReportFile cs rep) = scan_addons p cs := by
  induction cs with
  | nil => rfl
  | cons hd tl ih =>
    obtain ⟨m, c⟩ := hd
    simp only [writeReportFile, List.map_cons] at *
    by_cases h : m = "utils"
    · subst h
      simp only [beq_self_eq_true, if_true, scan_addons, bne_self_eq_false,
        Bool.and_false, Bool.false_eq_true, if_false]
      exact ih
    · have hb : (m == "utils") = false := by simp [h]
      simp only [hb, Bool.false_eq_true, if_false]
      by_cases hcond : (c.isDir && (m != "utils")) = true
      · simp only [scan_addons, hcond, if_true]
        rw [ih]
      · have hcf : (c.isDir && (m != "utils")) = false := by
          simpa using hcond
        simp only [scan_addons, hcf, Bool.false_eq_true, if_false]
        exact ih

/-- Looking up the `utils` entry after the report write shows the report
deposited inside it. -/
theorem writeReport_lookup_utils (rep : String) :
    ∀ cs ucs : List (String × FSTree),
      List.lookup "utils" cs = some (.dir ucs) →
      List.lookup "utils" (writeReportFile cs rep) =
        some (.dir (setChild ucs "workbench_report.csv" (.file rep))) := by
  intro cs
  induction cs with
  | nil =>
    intro ucs h
    simp at h
  | cons hd tl ih =>
    intro ucs h
    obtain ⟨m, c⟩ := hd
    by_cases hm : m = "utils"
    · subst hm
      simp only [List.lookup_cons, beq_self_eq_true, if_true,
        Option.some.injEq] at h
      simp only [writeReportFile, List.map_cons, beq_self_eq_true, if_true,
        List.lookup_cons]
      subst h
      simp [addReport]
    · have hb : ("utils" == m) = false := by
        simp only [beq_eq_false_iff_ne]
        exact fun e => hm e.symm
      have hb3 : (m == "utils") = false := by simp [hm]
      simp only [List.lookup_cons, hb, Bool.false_eq_true, if_false] at h
      simp only [writeReportFile, List.map_cons, hb3, Bool.false_eq_true,
        if_false, List.lookup_cons, hb]
      simpa only [writeReportFile] using ih ucs h

/-- Entries other than `utils` are untouched by the report write. -/
theorem writeReport_lookup_other (rep n : String)
    (hn : (n == "utils") = false) :
    ∀ cs : List (String × FSTree),
      List.lookup n (writeReportFile cs rep) = List.lookup n cs := by
  intro cs
  induction cs with
  | nil => rfl
  | cons hd tl ih =>
    obtain ⟨m, c⟩ := hd
    by_cases hm : m = "utils"
    · subst hm
      simp only [writeReportFile, List.map_cons, beq_self_eq_true, if_true,
        List.lookup_cons, hn, Bool.false_eq_true, if_false]
      simpa only [writeReportFile] using ih
    · have hb3 : (m == "utils") = false := by simp [hm]
      simp only [writeReportFile, List.map_cons, hb3, Bool.false_eq_true,
        if_false, List.lookup_cons]
      by_cases he : n = m
      · subst he
        simp
      · have hb4 : (n == m) = false := by simp [he]
        simp only [hb4, Bool.false_eq_true, if_false]
        simpa only [writeReportFile] using ih

/-- C6: two consecutive runs of the tool over a tree that nothing else
modifies produce byte-identical report contents: the first run's sole
change to the tree — depositing the report under `utils` — is invisible
to the second run's scan, and the report is a pure function of the
scanned tree. -/
theorem run_twice_report_identical (p : String)
    (cs : List (String × FSTree)) :
    (run_main p (run_main p cs).2).1 = (run_main p cs).1 := by
  simp only [run_main]
  rw [scan_addons_writeReport]

/-- C10: the report file always lands at `utils/workbench_report.csv` —
inside the housekeeping directory the scan excludes by name — so the
write never creates or modifies a scanned addon: every entry other than
`utils` is untouched and a subsequent scan classifies exactly the same
directories. -/
theorem report_written_inside_utils (p rep : String)
    (cs ucs : List (String × FSTree))
    (h : List.lookup "utils" cs = some (.dir ucs)) :
    List.lookup "utils" (writeReportFile cs rep) =
      some (.dir (setChild ucs "workbench_report.csv" (.file rep))) ∧
    (∀ n : String, (n == "utils") = false →
      List.lookup n (writeReportFile cs rep) = List.lookup n cs) ∧
    scan_addons p (writeReportFile cs rep) = scan_addons p cs :=
  ⟨writeReport_lookup_utils rep cs ucs h,
    fun n hn => writeReport_lookup_other rep n hn cs,
    scan_addons_writeReport p rep cs⟩

/-- Witness for C10 at a concrete two-entry scan root. -/
theorem report_written_inside_utils_witness :
    List.lookup "utils"
        (writeReportFile [("utils", FSTree.dir []), ("A", FSTree.dir [])] "x") =
      some (.dir (setChild [] "workbench_report.csv" (.file "x"))) ∧
    (∀ n : String, (n == "utils") = false →
      List.lookup n
          (writeReportFile [("utils", FSTree.dir []), ("A", FSTree.dir [])] "x") =
        List.lookup n [("utils", FSTree.dir []), ("A", FSTree.dir [])]) ∧
    scan_addons "/r"
        (writeReportFile [("utils", FSTree.dir []), ("A", FSTree.dir [])] "x") =
      scan_addons "/r" [("utils", FSTree.dir []), ("A", FSTree.dir [])] :=
  report_written_inside_utils "/r" "x"
    [("utils", FSTree.dir []), ("A", FSTree.dir [])] []
    (by simp [List.lookup_cons])
